import Mathlib

/-!
Verification development for the readium-processor-lambda repository
(`main.go`).  The Go code is shallowly embedded: Go strings are modelled
as lists of characters (`Str`), Go maps built by check-then-insert are
modelled as association lists, and the external collaborators (the
publication reader `pub.Get(...).Read`, the Supabase HTTP upload, the
URL parser, and the regex engine) are modelled as oracle functions that
are parameters of the embedded code.  Every definition follows the
corresponding function of `main.go`; the source line numbers are cited
in the doc comments.
-/

namespace Readium

/-- Go strings modelled as lists of characters. -/
abbrev Str := List Char

/-- Turns a Lean string literal into the `Str` model. -/
def strLit (s : String) : Str := s.toList

/-- Go `strings.HasPrefix s p`. -/
def goHasPrefix (s p : Str) : Bool := p.isPrefixOf s

/-- Go `strings.TrimPrefix s p`: removes one leading occurrence of `p`. -/
def goTrimStart (s p : Str) : Str := if p.isPrefixOf s then s.drop p.length else s

/-- Go `strings.HasSuffix s p`. -/
def goHasSuffix (s p : Str) : Bool := p.isSuffixOf s

/-- Go `strings.TrimSuffix s p`. -/
def goTrimEnd (s p : Str) : Str :=
  if p.isSuffixOf s then s.take (s.length - p.length) else s

/-- Go `strings.Contains s sub`: some drop of `s` starts with `sub`. -/
def goContains (s sub : Str) : Bool :=
  (List.range (s.length + 1)).any (fun i => sub.isPrefixOf (s.drop i))

/-- Go `strings.ToLower` (character-wise, as used on ASCII titles). -/
def goToLower (s : Str) : Str := s.map Char.toLower

/-- Extraction of the base href before the first `#`, as in
`main.go:298-301` (`if idx := strings.Index(hrefStr, "#"); idx >= 0`
followed by `hrefStr[:idx]`). -/
def stripFragment (s : Str) : Str := s.takeWhile (fun c => c ≠ '#')

/-- Readium `Link` (`github.com/readium/go-toolkit/pkg/manifest.Link`
restricted to the fields `main.go` reads): href, optional media type,
title (empty means absent), rel tags, nested children (TOC only). -/
inductive Link : Type where
  | mk : Str → Option Str → Str → List Str → List Link → Link

def Link.href : Link → Str
  | .mk h _ _ _ _ => h

def Link.mediaType : Link → Option Str
  | .mk _ m _ _ _ => m

def Link.title : Link → Str
  | .mk _ _ t _ _ => t

def Link.rels : Link → List Str
  | .mk _ _ _ r _ => r

def Link.children : Link → List Link
  | .mk _ _ _ _ c => c

/-- The four reference collections of the source manifest that
`main.go` traverses (`manifest.ReadingOrder`, `.TableOfContents`,
`.Links`, `.Resources`).  Metadata is a pass-through blob and is not
modelled. -/
structure Manifest : Type where
  readingOrder : List Link
  tableOfContents : List Link
  links : List Link
  resources : List Link

/-! ### Link Rewriter (`rewriteLinksInXHTML`, `main.go:462-510`)

`rewriteLinksInXHTML` applies Go's `regexp.ReplaceAllStringFunc` with
the pattern `(?i)(<a[^>]*\s+href=["'])([^"']+)(["'][^>]*>)`.  The regex
engine is external; its output is modelled as a decomposition of the
document into segments: literal text between matches (`XSeg.lit`) and
anchor matches carrying the three submatch groups (`XSeg.amatch`).
Because the three groups are contiguous and cover the whole match, a
match string equals `pre ++ val ++ suf`. -/

/-- A segment of an XHTML document as decomposed by the href regex. -/
inductive XSeg : Type where
  | lit : Str → XSeg
  | amatch : Str → Str → Str → XSeg
deriving DecidableEq

/-- The skip test of the replacement closure, `main.go:482-487`. -/
def isSkippedHref (v : Str) : Bool :=
  goHasPrefix v (strLit "http://") || goHasPrefix v (strLit "https://") ||
  goHasPrefix v (strLit "mailto:") || goHasPrefix v (strLit "data:") ||
  goHasPrefix v (strLit "#")

/-- Embeds `normalizeRelativeLink`, `main.go:502-510`: strip a leading `./`,
then strip a leading `/`. -/
def normalizeRelativeLink (link : Str) : Str :=
  goTrimStart (goTrimStart link (strLit "./")) (strLit "/")

/-- The replacement closure of `rewriteLinksInXHTML` applied to one
match with submatch groups `pre`/`val`/`suf` (`main.go:471-496`).
Returning the original match verbatim is returning `pre ++ val ++ suf`. -/
def rewriteAnchorMatch (pre val suf : Str) : Str :=
  if isSkippedHref val then pre ++ val ++ suf
  else pre ++ normalizeRelativeLink val ++ suf

/-- One segment of the rewritten document: text outside matches is left
unchanged by `ReplaceAllStringFunc`; each match is replaced by the
closure's result. -/
def rewriteSeg : XSeg → Str
  | .lit s => s
  | .amatch p v s => rewriteAnchorMatch p v s

/-- Embeds `rewriteLinksInXHTML` on a document decomposed into segments:
concatenation of the per-segment results (`main.go:462-499`). -/
def rewriteLinksInXHTML (segs : List XSeg) : Str :=
  (segs.map rewriteSeg).flatten

/-! ### Resource Walker (`extractAndUploadResources`, `main.go:281-437`)

The external collaborators are oracles fixed for one run: `urlOk`
models `url.URLFromString` succeeding, `read` models
`pub.Get(ctx, link).Read(ctx, 0, 0)` (`none` = read failure), and
`uploadOk` models the HTTP status of `uploadToSupabase` on a given
storage path.  `rewriteEngine` stands for the regex-driven
`rewriteLinksInXHTML` applied to raw bytes, whose per-match behaviour
is modelled separately above.  The state carries the resource map as an
association list plus traces of the reads attempted and the uploads
that were persisted; the traces model side effects already performed
and therefore survive the error path (the Go code is not
transactional). -/

structure Oracles : Type where
  urlOk : Str → Bool
  read : Str → Option Str
  uploadOk : Str → Bool
  rewriteEngine : Str → Str

/-- A persisted upload: original href, storage path, uploaded bytes. -/
structure UploadEv : Type where
  href : Str
  path : Str
  content : Str
deriving DecidableEq

/-- Walker state: resource map (href to public URL) plus the effect
traces. -/
structure WalkSt : Type where
  resourceMap : List (Str × Str)
  reads : List Str
  uploads : List UploadEv
deriving DecidableEq

def initSt : WalkSt := ⟨[], [], []⟩

/-- Go map lookup `resourceMap[href]` on the association-list model. -/
def mapLookup (m : List (Str × Str)) (k : Str) : Option Str :=
  (m.find? (fun p => p.1 == k)).map (fun p => p.2)

/-- Public URL returned by `uploadToSupabase` (`main.go:1168`). -/
def publicURL (supabaseURL bucket path : Str) : Str :=
  goTrimEnd supabaseURL (strLit "/") ++ strLit "/storage/v1/object/public/" ++
    bucket ++ strLit "/" ++ path

def manifestBucket : Str := strLit "readium-manifests"

/-- Embeds `processResource`, `main.go:374-437`.  Skip when the href is
already a key of the resource map; otherwise parse the href, read the
resource, rewrite it when it is XHTML/HTML, compute the storage path
`basePath/<href without leading slash>`, upload, and record the map
entry.  The second component is the returned error. -/
def processResource (o : Oracles) (basePath supabaseURL : Str) (st : WalkSt)
    (href : Str) (manifestLink : Option Link) : WalkSt × Option Str :=
  match mapLookup st.resourceMap href with
  | some _ => (st, none)
  | none =>
    if o.urlOk href = false then (st, some (strLit "failed to create HREF")) else
    let st1 : WalkSt := { st with reads := st.reads ++ [href] }
    match o.read href with
    | none => (st1, some (strLit "failed to read resource"))
    | some resourceData =>
      let mt : Option Str := match manifestLink with
        | some l => l.mediaType
        | none => none
      let isXHTML0 : Bool := match mt with
        | some m => m == strLit "application/xhtml+xml" || m == strLit "text/html"
        | none => false
      let isXHTML : Bool := isXHTML0 ||
        (!isXHTML0 && (goHasSuffix href (strLit ".xhtml") || goHasSuffix href (strLit ".html")))
      let resourceData1 : Str := if isXHTML then o.rewriteEngine resourceData else resourceData
      let storagePath : Str := basePath ++ strLit "/" ++ goTrimStart href (strLit "/")
      if o.uploadOk storagePath = false then
        (st1, some (strLit "failed to upload resource"))
      else
        let resourceURL := publicURL supabaseURL manifestBucket storagePath
        ({ st1 with
            resourceMap := st1.resourceMap ++ [(href, resourceURL)],
            uploads := st1.uploads ++ [⟨href, storagePath, resourceData1⟩] }, none)

/-- Embeds `findLinkInManifest`, `main.go:346-371`: reading order by exact
href, then resources by exact href, then TOC entries compared on their
fragment-stripped href. -/
def findLinkInManifest (href : Str) (m : Manifest) : Option Link :=
  match m.readingOrder.find? (fun l => l.href == href) with
  | some l => some l
  | none =>
    match m.resources.find? (fun l => l.href == href) with
    | some l => some l
    | none => m.tableOfContents.find? (fun l => stripFragment l.href == href)

/-- A phase of the walker that propagates the first error
(reading-order, TOC and resources phases, `main.go:286-291,294-310,
335-340`). -/
def runFatal (o : Oracles) (basePath supabaseURL : Str) :
    WalkSt → List (Str × Option Link) → WalkSt × Option Str
  | st, [] => (st, none)
  | st, c :: rest =>
    match processResource o basePath supabaseURL st c.1 c.2 with
    | (st1, none) => runFatal o basePath supabaseURL st1 rest
    | (st1, some e) => (st1, some e)

/-- The generic-links phase: an error is logged and the candidate is
skipped, processing continues (`main.go:314-332`). -/
def runSkip (o : Oracles) (basePath supabaseURL : Str) :
    WalkSt → List (Str × Option Link) → WalkSt
  | st, [] => st
  | st, c :: rest =>
    runSkip o basePath supabaseURL (processResource o basePath supabaseURL st c.1 c.2).1 rest

/-- Reading-order candidates: each item with its own link
(`main.go:286-291`). -/
def roCandidates (m : Manifest) : List (Str × Option Link) :=
  m.readingOrder.map (fun l => (l.href, some l))

/-- TOC candidates: each entry reduced to its fragment-stripped base
href, skipped when empty, paired with the link found in the manifest
(`main.go:294-310`). -/
def tocCandidates (m : Manifest) : List (Str × Option Link) :=
  if m.tableOfContents.length > 0 then
    m.tableOfContents.filterMap (fun l =>
      let baseHref := stripFragment l.href
      if baseHref ≠ [] then some (baseHref, findLinkInManifest baseHref m) else none)
  else []

/-- Generic-link candidates: links that are not `http://`, `https://`
or `~`-prefixed, reduced to their non-empty base href
(`main.go:314-332`). -/
def linkCandidates (m : Manifest) : List (Str × Option Link) :=
  m.links.filterMap (fun l =>
    let hrefStr := l.href
    if !goHasPrefix hrefStr (strLit "http://") && !goHasPrefix hrefStr (strLit "https://") &&
        !goHasPrefix hrefStr (strLit "~") then
      let baseHref := stripFragment hrefStr
      if baseHref ≠ [] then some (baseHref, findLinkInManifest baseHref m) else none
    else none)

/-- Resources candidates (`main.go:335-340`). -/
def resCandidates (m : Manifest) : List (Str × Option Link) :=
  m.resources.map (fun l => (l.href, some l))

/-- Embeds `extractAndUploadResources`, `main.go:281-343`: reading order, TOC
and resources phases propagate their first error; the generic-links
phase never does. -/
def extractAndUploadResources (o : Oracles) (basePath supabaseURL : Str)
    (m : Manifest) : WalkSt × Option Str :=
  let r1 := runFatal o basePath supabaseURL initSt (roCandidates m)
  match r1.2 with
  | some e => (r1.1, some e)
  | none =>
    let r2 := runFatal o basePath supabaseURL r1.1 (tocCandidates m)
    match r2.2 with
    | some e => (r2.1, some e)
    | none =>
      let st3 := runSkip o basePath supabaseURL r2.1 (linkCandidates m)
      runFatal o basePath supabaseURL st3 (resCandidates m)

/-! ### Position Index Builder (`generatePositionsJSON`, `main.go:620-740`)

Pass 1 reads every reading-order item (read failures are logged and the
item is excluded) and computes per-item character and position counts;
pass 2 emits the flattened entries.  Go's `float64` progressions are
modelled exactly over `ℚ`: both `/` and the comparison with `1.0` only
enter the claims through order facts, which IEEE-754 division (correctly
rounded, hence monotone) preserves. -/

def charsPerPosition : Nat := 1024

/-- Per reading-order item data of pass 1 (`main.go:627-632`). -/
structure ResourceInfo : Type where
  href : Str
  mediaType : Str
  charCount : Nat
  numPositions : Nat
deriving DecidableEq

/-- Pass 1 (`main.go:637-682`): `charCount` is the byte length of the
content (`len(string(resourceData))`), `numPositions` starts at 1 and
becomes the ceiling division for non-empty content. -/
def pass1 (o : Oracles) (readingOrder : List Link) : List ResourceInfo :=
  readingOrder.filterMap (fun l =>
    match o.read l.href with
    | none => none
    | some resourceData =>
      let charCount := resourceData.length
      let numPositions : Nat :=
        if charCount > 0 then
          let np := (charCount + charsPerPosition - 1) / charsPerPosition
          if np == 0 then 1 else np
        else 1
      let mediaTypeStr : Str := match l.mediaType with
        | some mt => mt
        | none => []
      some ⟨l.href, mediaTypeStr, charCount, numPositions⟩)

/-- Accumulated `totalChars` of pass 1 (`main.go:681`). -/
def totalCharsOf (infos : List ResourceInfo) : Nat :=
  (infos.map (fun i => i.charCount)).sum

/-- One entry of the position list (`main.go:713-725`); the `type` key
is present only for a non-empty media type. -/
structure PositionEntry : Type where
  href : Str
  mtype : Option Str
  position : Nat
  progression : ℚ
  totalProgression : ℚ
deriving DecidableEq

/-- The clamped total-progression computation of `main.go:702-711`. -/
def tpClamp (totalChars charsAtPosition : Nat) : ℚ :=
  if totalChars > 0 then
    let tp : ℚ := (charsAtPosition : ℚ) / (totalChars : ℚ)
    if tp > 1 then 1 else tp
  else 0

/-- The `i`-th entry emitted for one resource in pass 2
(`main.go:692-728`). -/
def entryFor (totalChars cumulativeChars positionCounter : Nat)
    (info : ResourceInfo) (i : Nat) : PositionEntry :=
  let progression : ℚ :=
    if info.numPositions > 1 then (i : ℚ) / ((info.numPositions - 1 : Nat) : ℚ) else 0
  let charsAtPosition := cumulativeChars + i * info.charCount / info.numPositions
  { href := goTrimStart info.href (strLit "/")
    mtype := if info.mediaType ≠ [] then some info.mediaType else none
    position := positionCounter + i
    progression := progression
    totalProgression := tpClamp totalChars charsAtPosition }

/-- All entries emitted for one resource (`main.go:692-729`). -/
def entriesFor (totalChars cumulativeChars positionCounter : Nat)
    (info : ResourceInfo) : List PositionEntry :=
  (List.range info.numPositions).map (entryFor totalChars cumulativeChars positionCounter info)

/-- Pass 2 (`main.go:685-732`): walk the infos, threading the global
position counter and the cumulative character count. -/
def pass2 (totalChars : Nat) :
    List ResourceInfo → Nat → Nat → List PositionEntry
  | [], _, _ => []
  | info :: rest, positionCounter, cumulativeChars =>
    entriesFor totalChars cumulativeChars positionCounter info ++
      pass2 totalChars rest (positionCounter + info.numPositions)
        (cumulativeChars + info.charCount)

/-- The document shape `{total, positions}` (`main.go:734-737`). -/
structure PositionsDoc : Type where
  total : Nat
  positions : List PositionEntry

/-- Embeds `generatePositionsJSON`, `main.go:620-740` (the resulting document
before JSON marshalling). -/
def generatePositionsJSON (o : Oracles) (readingOrder : List Link) : PositionsDoc :=
  let infos := pass1 o readingOrder
  let totalChars := totalCharsOf infos
  let positions := pass2 totalChars infos 1 0
  { total := positions.length, positions := positions }

/-! ### TOC projection (`convertTOCLink`, `main.go:557-583`) -/

/-- Output node of the TOC projection; the `children` key is present
only when non-empty. -/
inductive TocItem : Type where
  | mk : Str → Option Str → Option (List TocItem) → TocItem

def TocItem.href : TocItem → Str
  | .mk h _ _ => h

def TocItem.title : TocItem → Option Str
  | .mk _ t _ => t

def TocItem.childItems : TocItem → Option (List TocItem)
  | .mk _ _ c => c

/-- Embeds `convertTOCLink`, `main.go:557-583`: the emitted href is the link's
full href (fragment included) with one leading slash stripped; children
are projected recursively and included only when non-empty. -/
def convertTOCLink : Link → TocItem
  | .mk href _ title _ children =>
    .mk (goTrimStart href (strLit "/"))
      (if title ≠ [] then some title else none)
      (if children.length > 0 then
        some (children.attach.map (fun c => convertTOCLink c.1))
      else none)
decreasing_by
  have := List.sizeOf_lt_of_mem c.2
  simp only [Link.mk.sizeOf_spec]
  omega

/-! ### Manifest Synthesizer (`generateManifestWithSupabaseURLs`,
`main.go:816-1076`), split into its landmark, links and resources
sections. -/

/-- The landmark rel set (`main.go:862-866`). -/
def isLandmarkRel (r : Str) : Bool :=
  r == strLit "contents" || r == strLit "start" || r == strLit "copyright"

/-- Does the rels list of a link intersect the landmark rel set
(`main.go:873-879`, `main.go:992-998`)? -/
def relsIntersectLandmarks (rels : List Str) : Bool :=
  rels.any isLandmarkRel

/-- The landmark test on a generic link: rel-based, or an exact title
match (`main.go:873-883`). -/
def isLandmarkLink (l : Link) : Bool :=
  relsIntersectLandmarks l.rels ||
    (l.title == strLit "Table of Contents" || l.title == strLit "Begin Reading" ||
      l.title == strLit "Copyright Page")

/-- A landmark entry `{href, title}`. -/
structure LmItem : Type where
  href : Str
  title : Option Str
deriving DecidableEq

/-- Landmarks contributed by `manifest.Links` (`main.go:871-900`): each
qualifying link is appended (no duplicate check) and its full href is
recorded in the `landmarkHrefs` set; the association of recorded hrefs
is modelled as the list of recorded keys. -/
def landmarksFromLinks (links : List Link) : List LmItem × List Str :=
  links.foldl (fun acc l =>
    if isLandmarkLink l then
      (acc.1 ++ [⟨goTrimStart l.href (strLit "/"),
                  if l.title ≠ [] then some l.title else none⟩],
       acc.2 ++ [l.href])
    else acc) ([], [])

/-- The TOC landmark title heuristic (`main.go:911-925`): returns the
synthesized label when the lower-cased title matches. -/
def tocLandmarkTitle (lowerTitle : Str) : Option Str :=
  if goContains lowerTitle (strLit "table of contents") ||
      goContains lowerTitle (strLit "contents") ||
      goContains lowerTitle (strLit "toc") then
    some (strLit "Table of Contents")
  else if goContains lowerTitle (strLit "begin reading") ||
      goContains lowerTitle (strLit "start") then
    some (strLit "Begin Reading")
  else if goContains lowerTitle (strLit "copyright") then
    some (strLit "Copyright Page")
  else none

/-- One step of the TOC landmark scan (`main.go:904-942`): skip when
the entry's full href is already recorded; otherwise add an entry when
the title heuristic fires, recording the full href. -/
def tocLandmarkStep (acc : List LmItem × List Str) (l : Link) : List LmItem × List Str :=
  if l.href ∈ acc.2 then acc
  else
    match tocLandmarkTitle (goToLower l.title) with
    | some landmarkTitle =>
      (acc.1 ++ [⟨goTrimStart l.href (strLit "/"),
                  if landmarkTitle ≠ [] then some landmarkTitle
                  else if l.title ≠ [] then some l.title else none⟩],
       acc.2 ++ [l.href])
    | none => acc

/-- Landmarks contributed by the TOC scan (`main.go:903-943`). -/
def landmarksAddTOC (toc : List Link) (acc : List LmItem × List Str) :
    List LmItem × List Str :=
  toc.foldl tocLandmarkStep acc

/-- The full landmarks list (`main.go:862-956`): generic links, then
the TOC scan (only when the TOC is non-empty), then the
first-reading-order-item fallback. -/
def landmarksOf (m : Manifest) : List LmItem :=
  let acc0 := landmarksFromLinks m.links
  let acc1 := if m.tableOfContents.length > 0 then landmarksAddTOC m.tableOfContents acc0
              else acc0
  if acc1.1.length = 0 ∧ m.readingOrder.length > 0 then
    match m.readingOrder with
    | [] => acc1.1
    | firstLink :: _ =>
      acc1.1 ++ [⟨goTrimStart firstLink.href (strLit "/"), some (strLit "Begin Reading")⟩]
  else acc1.1

/-- A `rel` value in an emitted item: a single string when the link has
one rel, an array otherwise (`main.go:1017-1023`, `main.go:1051-1061`). -/
inductive RelVal : Type where
  | one : Str → RelVal
  | many : List Str → RelVal
deriving DecidableEq

/-- The emitted rel of a link with the given rels
(`main.go:1017-1023`). -/
def renderRels : List Str → Option RelVal
  | [] => none
  | [r] => some (.one r)
  | rs => some (.many rs)

/-- An item of the `links` array (and of the `resources` array):
href, optional type, optional rel. -/
structure LinkItem : Type where
  href : Str
  mtype : Option Str
  rel : Option RelVal
deriving DecidableEq

/-- Rendering of one generic link in the `links` array
(`main.go:1003-1024`): internal hrefs (not `http://`/`https://`/`~`)
lose one leading slash, others pass through unchanged. -/
def renderGenericLink (l : Link) : LinkItem :=
  let hrefStr := l.href
  let hrefStr1 :=
    if !goHasPrefix hrefStr (strLit "http://") && !goHasPrefix hrefStr (strLit "https://") &&
        !goHasPrefix hrefStr (strLit "~") then
      goTrimStart hrefStr (strLit "/")
    else hrefStr
  { href := hrefStr1, mtype := l.mediaType, rel := renderRels l.rels }

/-- The absolute output URL of the manifest (`main.go:818-819`). -/
def selfManifestURL (basePath supabaseURL : Str) : Str :=
  publicURL supabaseURL manifestBucket (basePath ++ strLit "/manifest.json")

/-- The `links` array (`main.go:962-1028`): the self link, the
content-index link and the position-list link, then every generic link
whose rels do not intersect the landmark rel set. -/
def buildLinks (m : Manifest) (basePath supabaseURL : Str) : List LinkItem :=
  let selfItem : LinkItem :=
    { href := selfManifestURL basePath supabaseURL,
      mtype := some (strLit "application/webpub+json"),
      rel := some (.one (strLit "self")) }
  let contentItem : LinkItem :=
    { href := strLit "readium/content.json",
      mtype := some (strLit "application/vnd.readium.content+json"), rel := none }
  let positionsItem : LinkItem :=
    { href := strLit "readium/positions.json",
      mtype := some (strLit "application/vnd.readium.position-list+json"), rel := none }
  m.links.foldl (fun acc l =>
      if relsIntersectLandmarks l.rels then acc else acc ++ [renderGenericLink l])
    [selfItem, contentItem, positionsItem]

/-- Rendering of one resource in the `resources` array
(`main.go:1031-1064`): relative href, type, a synthesized
`rel: "contents"` when the href names a TOC file, then any pre-existing
rels assigned to the same `rel` key (overwriting the synthesized
value). -/
def renderResource (l : Link) : LinkItem :=
  let hrefStr := l.href
  let item0 : LinkItem :=
    { href := goTrimStart hrefStr (strLit "/"), mtype := l.mediaType, rel := none }
  let item1 : LinkItem :=
    if goContains hrefStr (strLit "toc.xhtml") || goContains hrefStr (strLit "toc.ncx") then
      { item0 with rel := some (.one (strLit "contents")) }
    else item0
  match l.rels with
  | [] => item1
  | [r] => { item1 with rel := some (.one r) }
  | rs => { item1 with rel := some (.many rs) }

/-- The `resources` array (`main.go:1031-1064`). -/
def buildResources (m : Manifest) : List LinkItem :=
  m.resources.map renderResource

/-! ### Transport handler (`handler`, `main.go:48-137`)

The JSON body parsing is external; its result is the extracted
`epubFilename` (empty when missing).  Downloading the EPUB and the
whole of `processEPUB` (parsing, resource walking, uploads, manifest
synthesis and upload) are collapsed into two oracle calls whose
invocations are traced: every storage access of a request happens
inside one of them. -/

structure HandlerOracles : Type where
  download : Str → Option Str
  processEPUB : Str → Str → Option Str

inductive HandlerEff : Type where
  | download : HandlerEff
  | process : HandlerEff
deriving DecidableEq

/-- The authenticated storage URL of the requested EPUB
(`main.go:96`). -/
def epubStorageURL (supabaseURL epubFilename : Str) : Str :=
  goTrimEnd supabaseURL (strLit "/") ++ strLit "/storage/v1/object/epubs/" ++ epubFilename

/-- Embeds `handler`, `main.go:48-137`: method gate, environment gates,
filename extraction, sanitization (strip one leading slash, reject
`..`), then download and processing.  Returns the HTTP status and the
trace of storage-touching effects. -/
def handler (o : HandlerOracles) (method supabaseURL serviceKey epubFilename0 : Str) :
    Nat × List HandlerEff :=
  if method ≠ strLit "POST" then (405, []) else
  if supabaseURL = [] then (500, []) else
  if serviceKey = [] then (500, []) else
  if epubFilename0 = [] then (400, []) else
  let epubFilename := goTrimStart epubFilename0 (strLit "/")
  if goContains epubFilename (strLit "..") then (400, []) else
  match o.download (epubStorageURL supabaseURL epubFilename) with
  | none => (500, [.download])
  | some epubData =>
    match o.processEPUB epubData epubFilename with
    | none => (500, [.download, .process])
    | some _ => (200, [.download, .process])

/-! ## Helper lemmas -/

/-- One trim step only ever drops characters from the front. -/
theorem goTrimStart_suffix (s p : Str) : goTrimStart s p <:+ s := by
  unfold goTrimStart
  split
  · exact List.drop_suffix _ _
  · exact List.suffix_rfl

/-! ## Claims -/

/-- C3: in `rewriteLinksInXHTML`, an anchor href value starting with
`http://`, `https://`, `mailto:`, `data:` or `#` is left byte-identical
in the output; every other anchor href value is replaced by itself with
a leading `./` stripped and then a leading `/` stripped, the
surrounding markup (`a` before the match, the submatch groups `p` and
`s` around the value, `b` after the match) is preserved exactly, and
the rewritten value is a suffix of the original value, so the reference
stays relative and is never rewritten to an absolute output URL. -/
theorem C3_link_rewrite_safety (a b p v s : Str) :
    (isSkippedHref v = true →
      rewriteLinksInXHTML [.lit a, .amatch p v s, .lit b] = a ++ (p ++ v ++ s) ++ b) ∧
    (isSkippedHref v = false →
      rewriteLinksInXHTML [.lit a, .amatch p v s, .lit b] =
        a ++ (p ++ normalizeRelativeLink v ++ s) ++ b) ∧
    normalizeRelativeLink v = goTrimStart (goTrimStart v (strLit "./")) (strLit "/") ∧
    normalizeRelativeLink v <:+ v := by
  refine ⟨?_, ?_, rfl, ?_⟩
  · intro h
    simp [rewriteLinksInXHTML, rewriteSeg, rewriteAnchorMatch, h, List.append_assoc]
  · intro h
    simp [rewriteLinksInXHTML, rewriteSeg, rewriteAnchorMatch, h, List.append_assoc]
  · exact (goTrimStart_suffix _ _).trans (goTrimStart_suffix _ _)

/-- Witness for C3 at concrete inputs: a same-document fragment href is
kept verbatim, and a `./`-prefixed relative href is normalized in
place. -/
theorem C3_link_rewrite_safety_witness :
    rewriteLinksInXHTML [.lit (strLit "<p>x</p>"),
        .amatch (strLit "<a href=") (strLit "#top") (strLit ">"), .lit (strLit "end")] =
      strLit "<p>x</p>" ++ (strLit "<a href=" ++ strLit "#top" ++ strLit ">") ++ strLit "end" ∧
    rewriteLinksInXHTML [.lit (strLit "<p>x</p>"),
        .amatch (strLit "<a href=") (strLit "./ch1.xhtml") (strLit ">"), .lit (strLit "end")] =
      strLit "<p>x</p>" ++
        (strLit "<a href=" ++ normalizeRelativeLink (strLit "./ch1.xhtml") ++ strLit ">") ++
        strLit "end" :=
  ⟨(C3_link_rewrite_safety (strLit "<p>x</p>") (strLit "end") (strLit "<a href=")
      (strLit "#top") (strLit ">")).1 (by decide),
   (C3_link_rewrite_safety (strLit "<p>x</p>") (strLit "end") (strLit "<a href=")
      (strLit "./ch1.xhtml") (strLit ">")).2.1 (by decide)⟩

/-- C10: a POST request with the environment configured whose non-empty
filename still contains `..` after one leading slash is stripped is
answered with status 400, and neither the EPUB download nor any
processing or upload is performed (the effect trace is empty; every
storage access of the handler happens inside the two traced
collaborator calls). -/
theorem C10_handler_rejects_traversal (o : HandlerOracles) (su key f : Str)
    (hsu : su ≠ []) (hkey : key ≠ []) (hf : f ≠ [])
    (htrav : goContains (goTrimStart f (strLit "/")) (strLit "..") = true) :
    handler o (strLit "POST") su key f = (400, []) := by
  unfold handler
  simp [hsu, hkey, hf, htrav]

/-- Witness for C10: the filename `/../secret.epub` is rejected with
status 400 and an empty effect trace. -/
theorem C10_handler_rejects_traversal_witness :
    handler ⟨fun _ => some (strLit "PK"), fun _ _ => some (strLit "url")⟩
      (strLit "POST") (strLit "https://x.supabase.co") (strLit "service-key")
      (strLit "/../secret.epub") = (400, []) :=
  C10_handler_rejects_traversal _ _ _ _ (by decide) (by decide) (by decide) (by decide)

/-- C9: for every reading-order item whose content is read
successfully, pass 1 records `charCount` equal to the byte length of
the content read for the item's href and
`positionCount = ceil(charCount / 1024)` with a floor of 1 when
`charCount = 0`; hence every included item contributes at least one
position entry in pass 2. -/
theorem C9_pass1_position_count_floor (o : Oracles) (readingOrder : List Link) :
    ∀ info ∈ pass1 o readingOrder,
      1 ≤ info.numPositions ∧
      info.numPositions = (if info.charCount = 0 then 1 else (info.charCount + 1023) / 1024) ∧
      (∃ l ∈ readingOrder, ∃ data, o.read l.href = some data ∧
        info.charCount = data.length ∧ info.href = l.href) ∧
      (∀ totalChars cumulativeChars positionCounter,
        1 ≤ (entriesFor totalChars cumulativeChars positionCounter info).length) := by
  intro info hinfo
  rw [pass1, List.mem_filterMap] at hinfo
  obtain ⟨l, hl, hfl⟩ := hinfo
  rcases hread : o.read l.href with _ | data
  · rw [hread] at hfl; exact absurd hfl (by simp)
  · rw [hread] at hfl
    simp only [Option.some.injEq] at hfl
    subst hfl
    have hceil : (if data.length > 0 then
        let np := (data.length + charsPerPosition - 1) / charsPerPosition
        if np == 0 then 1 else np
      else 1) = (if data.length = 0 then 1 else (data.length + 1023) / 1024) := by
      rcases Nat.eq_zero_or_pos data.length with h0 | hpos
      · simp [h0]
      · have hne : data.length ≠ 0 := Nat.pos_iff_ne_zero.mp hpos
        have hnp : (data.length + charsPerPosition - 1) / charsPerPosition ≠ 0 := by
          have : charsPerPosition ≤ data.length + charsPerPosition - 1 := by
            unfold charsPerPosition; omega
          have hd := Nat.div_pos this (by unfold charsPerPosition; omega)
          omega
        simp only [hpos, if_pos, hne, if_neg, beq_iff_eq, hnp, if_false]
        have harg : data.length + charsPerPosition - 1 = data.length + 1023 := by
          unfold charsPerPosition; omega
        simp [hne, harg, charsPerPosition]
    refine ⟨?_, ?_, ⟨l, hl, data, hread, rfl, rfl⟩, ?_⟩
    · show 1 ≤ (if data.length > 0 then _ else 1)
      rw [hceil]
      rcases Nat.eq_zero_or_pos data.length with h0 | hpos
      · simp [h0]
      · have hne : data.length ≠ 0 := Nat.pos_iff_ne_zero.mp hpos
        simp only [hne, if_neg, if_false]
        have : 1024 ≤ data.length + 1023 := by omega
        exact Nat.div_pos this (by omega)
    · exact hceil
    · intro totalChars cumulativeChars positionCounter
      show 1 ≤ (List.map _ (List.range _)).length
      rw [List.length_map, List.length_range]
      show 1 ≤ (if data.length > 0 then _ else 1)
      rw [hceil]
      rcases Nat.eq_zero_or_pos data.length with h0 | hpos
      · simp [h0]
      · have hne : data.length ≠ 0 := Nat.pos_iff_ne_zero.mp hpos
        simp only [hne, if_neg, if_false]
        have : 1024 ≤ data.length + 1023 := by omega
        exact Nat.div_pos this (by omega)

/-- Witness for C9 at a concrete run: a five-character chapter yields
one position. -/
theorem C9_pass1_position_count_floor_witness :
    1 ≤ (⟨strLit "ch1.xhtml", [], 5, 1⟩ : ResourceInfo).numPositions ∧
    (⟨strLit "ch1.xhtml", [], 5, 1⟩ : ResourceInfo).numPositions =
      (if (⟨strLit "ch1.xhtml", [], 5, 1⟩ : ResourceInfo).charCount = 0 then 1
        else ((⟨strLit "ch1.xhtml", [], 5, 1⟩ : ResourceInfo).charCount + 1023) / 1024) ∧
    (∃ l ∈ [Link.mk (strLit "ch1.xhtml") none [] [] []], ∃ data,
      (⟨fun _ => true, fun _ => some (strLit "hello"), fun _ => true, id⟩ : Oracles).read l.href =
          some data ∧
        (⟨strLit "ch1.xhtml", [], 5, 1⟩ : ResourceInfo).charCount = data.length ∧
        (⟨strLit "ch1.xhtml", [], 5, 1⟩ : ResourceInfo).href = l.href) ∧
    (∀ totalChars cumulativeChars positionCounter,
      1 ≤ (entriesFor totalChars cumulativeChars positionCounter
            (⟨strLit "ch1.xhtml", [], 5, 1⟩ : ResourceInfo)).length) :=
  C9_pass1_position_count_floor
    ⟨fun _ => true, fun _ => some (strLit "hello"), fun _ => true, id⟩
    [Link.mk (strLit "ch1.xhtml") none [] [] []]
    ⟨strLit "ch1.xhtml", [], 5, 1⟩ (by decide)

/-- Projection of an emitted `rel` value to the set of rel strings it
carries. -/
def relMembers : Option RelVal → List Str
  | none => []
  | some (.one r) => [r]
  | some (.many rs) => rs

/-- C8 as amended: in the `resources` array, the synthesized
`rel: "contents"` appears exactly when the href matches the TOC naming
convention AND the link carries no pre-existing rels; when pre-existing
rels exist they are emitted instead and replace (not merge with) the
synthesized value; a resource matching neither convention with no rels
is emitted with no rel.  Hrefs are relativized and the type is passed
through. -/
theorem C8_resources_rel_contents (m : Manifest) (l : Link) (hl : l ∈ m.resources) :
    renderResource l ∈ buildResources m ∧
    ((goContains l.href (strLit "toc.xhtml") || goContains l.href (strLit "toc.ncx")) = true →
      l.rels = [] → (renderResource l).rel = some (.one (strLit "contents"))) ∧
    ((goContains l.href (strLit "toc.xhtml") || goContains l.href (strLit "toc.ncx")) = false →
      l.rels = [] → (renderResource l).rel = none) ∧
    (l.rels ≠ [] → (renderResource l).rel = renderRels l.rels) ∧
    (renderResource l).href = goTrimStart l.href (strLit "/") ∧
    (renderResource l).mtype = l.mediaType := by
  refine ⟨List.mem_map_of_mem renderResource hl, ?_, ?_, ?_, ?_, ?_⟩
  · intro hname hrels
    simp [renderResource, hname, hrels]
  · intro hname hrels
    simp [renderResource, hname, hrels]
  · intro hrels
    rcases hr : l.rels with _ | ⟨r, _ | rs⟩ <;>
      simp_all [renderResource, renderRels]
  · rcases hr : l.rels with _ | ⟨r, _ | rs⟩ <;>
      rcases hname : (goContains l.href (strLit "toc.xhtml") ||
        goContains l.href (strLit "toc.ncx")) <;>
      simp [renderResource, hname, hr]
  · rcases hr : l.rels with _ | ⟨r, _ | rs⟩ <;>
      rcases hname : (goContains l.href (strLit "toc.xhtml") ||
        goContains l.href (strLit "toc.ncx")) <;>
      simp [renderResource, hname, hr]

/-- Counterexample to C8 as stated: a `toc.xhtml` resource carrying the
pre-existing rel `foo` is emitted with `rel = foo` only — the
synthesized `contents` rel is NOT present, so the pre-existing rels are
not merged with it. -/
theorem C8_resources_rel_counterexample :
    (goContains (Link.mk (strLit "toc.xhtml") none [] [strLit "foo"] []).href
        (strLit "toc.xhtml") = true) ∧
    relMembers (renderResource (Link.mk (strLit "toc.xhtml") none [] [strLit "foo"] [])).rel =
      [strLit "foo"] ∧
    strLit "contents" ∉
      relMembers (renderResource (Link.mk (strLit "toc.xhtml") none [] [strLit "foo"] [])).rel := by
  refine ⟨by decide, by decide, by decide⟩

/-- Witness for C8 (amended) at the spec's own scenario: `toc.xhtml`
with no rels gets `rel: "contents"`; `cover.jpg` with no rels gets no
rel. -/
theorem C8_resources_rel_contents_witness :
    (renderResource (Link.mk (strLit "toc.xhtml") none [] [] [])).rel =
      some (.one (strLit "contents")) ∧
    (renderResource (Link.mk (strLit "cover.jpg") none [] [] [])).rel = none :=
  ⟨(C8_resources_rel_contents ⟨[], [], [], [Link.mk (strLit "toc.xhtml") none [] [] []]⟩
      (Link.mk (strLit "toc.xhtml") none [] [] []) (by simp)).2.1 (by decide) rfl,
   (C8_resources_rel_contents ⟨[], [], [], [Link.mk (strLit "cover.jpg") none [] [] []]⟩
      (Link.mk (strLit "cover.jpg") none [] [] []) (by simp)).2.2.1 (by decide) rfl⟩

/-- The key set of the association-list model of the resource map. -/
def mapKeys (m : List (Str × Str)) : List Str := m.map Prod.fst

/-- A fragment-stripped href never contains `#`. -/
theorem stripFragment_no_hash (s : Str) : '#' ∉ stripFragment s := by
  intro hmem
  have := List.takeWhile_prefix (l := s) (p := fun c => c ≠ '#')
  have hp := List.mem_takeWhile_imp hmem
  simp at hp

/-- Effect of one `processResource` step on the map keys and the upload
trace: any key of the new map is an old key or the processed href, and
any upload event is an old one or records the processed href together
with its storage path `basePath/<href without leading slash>`. -/
theorem processResource_state (o : Oracles) (basePath supabaseURL : Str) (st : WalkSt)
    (href : Str) (manifestLink : Option Link) :
    (∀ k ∈ mapKeys (processResource o basePath supabaseURL st href manifestLink).1.resourceMap,
      k ∈ mapKeys st.resourceMap ∨ k = href) ∧
    (∀ ev ∈ (processResource o basePath supabaseURL st href manifestLink).1.uploads,
      ev ∈ st.uploads ∨
        (ev.href = href ∧ ev.path = basePath ++ strLit "/" ++ goTrimStart href (strLit "/"))) := by
  unfold processResource
  split
  · exact ⟨fun k hk => Or.inl hk, fun ev hev => Or.inl hev⟩
  · split
    · exact ⟨fun k hk => Or.inl hk, fun ev hev => Or.inl hev⟩
    · split
      · exact ⟨fun k hk => Or.inl hk, fun ev hev => Or.inl hev⟩
      · by_cases h4 : o.uploadOk (basePath ++ strLit "/" ++ goTrimStart href (strLit "/")) = false
        · rw [if_pos h4]
          exact ⟨fun k hk => Or.inl hk, fun ev hev => Or.inl hev⟩
        · rw [if_neg h4]
          refine ⟨?_, ?_⟩
          · intro k hk
            simp only [mapKeys, List.map_append, List.mem_append, List.map_cons,
              List.map_nil, List.mem_singleton] at hk
            rcases hk with hk | hk
            · exact Or.inl hk
            · exact Or.inr hk
          · intro ev hev
            simp only [List.mem_append, List.mem_singleton] at hev
            rcases hev with hev | hev
            · exact Or.inl hev
            · subst hev; exact Or.inr ⟨rfl, rfl⟩

/-- Effect of a fatal phase on the map keys and the upload trace,
regardless of whether the phase ended in an error. -/
theorem runFatal_state (o : Oracles) (basePath supabaseURL : Str) :
    ∀ (cs : List (Str × Option Link)) (st : WalkSt),
      (∀ k ∈ mapKeys (runFatal o basePath supabaseURL st cs).1.resourceMap,
        k ∈ mapKeys st.resourceMap ∨ ∃ c ∈ cs, k = c.1) ∧
      (∀ ev ∈ (runFatal o basePath supabaseURL st cs).1.uploads,
        ev ∈ st.uploads ∨ ∃ c ∈ cs,
          ev.href = c.1 ∧ ev.path = basePath ++ strLit "/" ++ goTrimStart c.1 (strLit "/")) := by
  intro cs
  induction cs with
  | nil => intro st; simp [runFatal]
  | cons c rest ih =>
    intro st
    have hstep := processResource_state o basePath supabaseURL st c.1 c.2
    rcases hres : processResource o basePath supabaseURL st c.1 c.2 with ⟨st1, e⟩
    rw [hres] at hstep
    rcases e with _ | err
    · have hrec := ih st1
      constructor
      · intro k hk
        rw [runFatal, hres] at hk
        rcases (hrec.1 k hk) with h | ⟨c2, hc2, hkc⟩
        · rcases hstep.1 k h with h2 | h2
          · exact Or.inl h2
          · exact Or.inr ⟨c, List.mem_cons_self c rest, h2⟩
        · exact Or.inr ⟨c2, List.mem_cons_of_mem c hc2, hkc⟩
      · intro ev hev
        rw [runFatal, hres] at hev
        rcases (hrec.2 ev hev) with h | ⟨c2, hc2, hkc⟩
        · rcases hstep.2 ev h with h2 | h2
          · exact Or.inl h2
          · exact Or.inr ⟨c, List.mem_cons_self c rest, h2⟩
        · exact Or.inr ⟨c2, List.mem_cons_of_mem c hc2, hkc⟩
    · constructor
      · intro k hk
        rw [runFatal, hres] at hk
        rcases hstep.1 k hk with h2 | h2
        · exact Or.inl h2
        · exact Or.inr ⟨c, List.mem_cons_self c rest, h2⟩
      · intro ev hev
        rw [runFatal, hres] at hev
        rcases hstep.2 ev hev with h2 | h2
        · exact Or.inl h2
        · exact Or.inr ⟨c, List.mem_cons_self c rest, h2⟩

/-- Every TOC-phase candidate href is fragment-stripped. -/
theorem tocCandidates_no_hash (m : Manifest) :
    ∀ c ∈ tocCandidates m, '#' ∉ c.1 := by
  intro c hc
  rw [tocCandidates] at hc
  split at hc
  · rw [List.mem_filterMap] at hc
    obtain ⟨l, _, hl⟩ := hc
    dsimp at hl
    split at hl
    · cases hl
      exact stripFragment_no_hash l.href
    · cases hl
  · cases hc

/-- C7: the TOC phase of the Resource Walker keys the Resource Map and
the storage path on the fragment-stripped base href only — every TOC
candidate href is `#`-free, every map key added by the TOC phase is
`#`-free, every upload performed by the TOC phase has a `#`-free href
and (for a `#`-free base output path) a `#`-free storage path — while
`convertTOCLink` emits the full original href (leading slash stripped,
fragment preserved) in the synthesized output. -/
theorem C7_toc_fragment_handling (o : Oracles) (basePath supabaseURL : Str)
    (st : WalkSt) (m : Manifest) (hbp : '#' ∉ basePath) :
    (∀ c ∈ tocCandidates m, '#' ∉ c.1) ∧
    (∀ k ∈ mapKeys (runFatal o basePath supabaseURL st (tocCandidates m)).1.resourceMap,
      k ∈ mapKeys st.resourceMap ∨ '#' ∉ k) ∧
    (∀ ev ∈ (runFatal o basePath supabaseURL st (tocCandidates m)).1.uploads,
      ev ∈ st.uploads ∨ ('#' ∉ ev.href ∧ '#' ∉ ev.path)) ∧
    (∀ l : Link, (convertTOCLink l).href = goTrimStart l.href (strLit "/")) := by
  have hcand := tocCandidates_no_hash m
  have hstate := runFatal_state o basePath supabaseURL (tocCandidates m) st
  refine ⟨hcand, ?_, ?_, ?_⟩
  · intro k hk
    rcases hstate.1 k hk with h | ⟨c, hc, rfl⟩
    · exact Or.inl h
    · exact Or.inr (hcand c hc)
  · intro ev hev
    rcases hstate.2 ev hev with h | ⟨c, hc, hhref, hpath⟩
    · exact Or.inl h
    · refine Or.inr ⟨hhref ▸ hcand c hc, ?_⟩
      rw [hpath]
      intro hmem
      rcases List.mem_append.mp hmem with hmem1 | hmem1
      · rcases List.mem_append.mp hmem1 with hmem2 | hmem2
        · exact hbp hmem2
        · simp [strLit] at hmem2
      · have : '#' ∈ c.1 := (goTrimStart_suffix c.1 (strLit "/")).subset hmem1
        exact hcand c hc this
  · intro l
    rcases l with ⟨href, mt, title, rels, children⟩
    rw [convertTOCLink]
    rfl

/-- Witness for C7 on the spec's scenario `chap1.xhtml#section2`: the
added map key is `chap1.xhtml` (fragment-free) and the projected TOC
entry keeps the full `chap1.xhtml#section2` reference. -/
theorem C7_toc_fragment_handling_witness :
    ('#' ∉ strLit "chap1.xhtml") ∧
    ((convertTOCLink (Link.mk (strLit "chap1.xhtml#section2") none
        (strLit "Chapter 1") [] [])).href =
      goTrimStart (Link.mk (strLit "chap1.xhtml#section2") none
        (strLit "Chapter 1") [] []).href (strLit "/")) :=
  ⟨(C7_toc_fragment_handling ⟨fun _ => true, fun _ => some [], fun _ => true, id⟩
      (strLit "book") (strLit "https://x.co") initSt
      ⟨[], [Link.mk (strLit "chap1.xhtml#section2") none (strLit "Chapter 1") [] []], [], []⟩
      (by decide)).1
    (strLit "chap1.xhtml",
      findLinkInManifest (strLit "chap1.xhtml")
        ⟨[], [Link.mk (strLit "chap1.xhtml#section2") none (strLit "Chapter 1") [] []], [], []⟩)
    (by
      rw [tocCandidates]
      simp [stripFragment, strLit, Link.href]),
   (C7_toc_fragment_handling ⟨fun _ => true, fun _ => some [], fun _ => true, id⟩
      (strLit "book") (strLit "https://x.co") initSt
      ⟨[], [Link.mk (strLit "chap1.xhtml#section2") none (strLit "Chapter 1") [] []], [], []⟩
      (by decide)).2.2.2
    (Link.mk (strLit "chap1.xhtml#section2") none (strLit "Chapter 1") [] [])⟩


/-- A failed map lookup means the key is absent. -/
theorem mapLookup_none_not_mem {m : List (Str × Str)} {k : Str}
    (h : mapLookup m k = none) : k ∉ mapKeys m := by
  intro hmem
  rw [mapKeys, List.mem_map] at hmem
  obtain ⟨p, hp, hpk⟩ := hmem
  rw [mapLookup, Option.map_eq_none'] at h
  rw [List.find?_eq_none] at h
  exact absurd (by simp [hpk]) (h p hp)

/-- The walker invariant: map keys are pairwise distinct, uploaded
hrefs are pairwise distinct, and every uploaded href is a map key. -/
def WalkInv (st : WalkSt) : Prop :=
  (mapKeys st.resourceMap).Nodup ∧
  (st.uploads.map UploadEv.href).Nodup ∧
  ∀ h ∈ st.uploads.map UploadEv.href, h ∈ mapKeys st.resourceMap

theorem walkInv_init : WalkInv initSt := by
  refine ⟨List.nodup_nil, List.nodup_nil, ?_⟩
  intro h hmem
  cases hmem

/-- One `processResource` step preserves the walker invariant: an
upload and a map insertion happen only on a fresh key. -/
theorem processResource_inv (o : Oracles) (basePath supabaseURL : Str) (st : WalkSt)
    (href : Str) (manifestLink : Option Link) (hinv : WalkInv st) :
    WalkInv (processResource o basePath supabaseURL st href manifestLink).1 := by
  unfold processResource
  split
  · exact hinv
  · rename_i hlook
    have hfresh : href ∉ mapKeys st.resourceMap := mapLookup_none_not_mem hlook
    split
    · exact hinv
    · split
      · exact hinv
      · by_cases h4 : o.uploadOk (basePath ++ strLit "/" ++ goTrimStart href (strLit "/")) = false
        · rw [if_pos h4]
          exact hinv
        · rw [if_neg h4]
          obtain ⟨hkeys, hups, hsub⟩ := hinv
          have hupfresh : href ∉ st.uploads.map UploadEv.href := fun hc => hfresh (hsub href hc)
          refine ⟨?_, ?_, ?_⟩
          · show (mapKeys (st.resourceMap ++ [(href, _)])).Nodup
            rw [mapKeys, List.map_append]
            rw [List.nodup_append]
            exact ⟨hkeys, List.nodup_singleton _, by
              intro a ha hb
              simp at hb
              subst hb
              exact hfresh ha⟩
          · show ((st.uploads ++ [_]).map UploadEv.href).Nodup
            rw [List.map_append]
            rw [List.nodup_append]
            exact ⟨hups, List.nodup_singleton _, by
              intro a ha hb
              simp at hb
              subst hb
              exact hupfresh ha⟩
          · intro h hmem
            show h ∈ mapKeys (st.resourceMap ++ [(href, _)])
            rw [mapKeys, List.map_append, List.mem_append]
            rw [List.map_append, List.mem_append] at hmem
            rcases hmem with hmem | hmem
            · exact Or.inl (hsub h hmem)
            · simp at hmem
              subst hmem
              simp

/-- A fatal phase preserves the walker invariant (also when it stopped
at an error). -/
theorem runFatal_inv (o : Oracles) (basePath supabaseURL : Str) :
    ∀ (cs : List (Str × Option Link)) (st : WalkSt), WalkInv st →
      WalkInv (runFatal o basePath supabaseURL st cs).1 := by
  intro cs
  induction cs with
  | nil => intro st hinv; exact hinv
  | cons c rest ih =>
    intro st hinv
    have hstep := processResource_inv o basePath supabaseURL st c.1 c.2 hinv
    rw [runFatal]
    rcases hres : processResource o basePath supabaseURL st c.1 c.2 with ⟨st1, e⟩
    rw [hres] at hstep
    rcases e with _ | err
    · exact ih st1 hstep
    · exact hstep

/-- The generic-links phase preserves the walker invariant. -/
theorem runSkip_inv (o : Oracles) (basePath supabaseURL : Str) :
    ∀ (cs : List (Str × Option Link)) (st : WalkSt), WalkInv st →
      WalkInv (runSkip o basePath supabaseURL st cs) := by
  intro cs
  induction cs with
  | nil => intro st hinv; exact hinv
  | cons c rest ih =>
    intro st hinv
    rw [runSkip]
    exact ih _ (processResource_inv o basePath supabaseURL st c.1 c.2 hinv)

/-- The final state of a full walker run satisfies the invariant. -/
theorem extract_inv (o : Oracles) (basePath supabaseURL : Str) (m : Manifest) :
    WalkInv (extractAndUploadResources o basePath supabaseURL m).1 := by
  unfold extractAndUploadResources
  have h1 := runFatal_inv o basePath supabaseURL (roCandidates m) initSt walkInv_init
  rcases hr1 : runFatal o basePath supabaseURL initSt (roCandidates m) with ⟨st1, e1⟩
  rw [hr1] at h1
  rcases e1 with _ | err1
  · have h2 := runFatal_inv o basePath supabaseURL (tocCandidates m) st1 h1
    rcases hr2 : runFatal o basePath supabaseURL st1 (tocCandidates m) with ⟨st2, e2⟩
    rw [hr2] at h2
    rcases e2 with _ | err2
    · have h3 := runSkip_inv o basePath supabaseURL (linkCandidates m) st2 h2
      dsimp only
      rw [hr2]
      exact runFatal_inv o basePath supabaseURL (resCandidates m) _ h3
    · dsimp only
      rw [hr2]
      exact h2
  · dsimp only
    exact h1

/-- A list without duplicates counts every element at most once. -/
theorem count_le_one_of_nodup {l : List Str} (hnd : l.Nodup) (a : Str) : l.count a ≤ 1 := by
  induction l with
  | nil => simp
  | cons x xs ih =>
    rw [List.nodup_cons] at hnd
    rw [List.count_cons]
    by_cases hax : a = x
    · subst hax
      rw [List.count_eq_zero_of_not_mem hnd.1]
      simp
    · have hxa : ¬(x = a) := fun hh => hax hh.symm
      simp only [beq_iff_eq, hxa, if_false, Nat.add_zero]
      exact ih hnd.2

/-- C1: over one full run of `extractAndUploadResources`, every href is
uploaded at most once and receives at most one Resource Map entry; and
a `processResource` call on an href that is already a key of the
Resource Map returns the state entirely unchanged — no read attempt, no
upload, no map change — and no error. -/
theorem C1_walker_idempotent (o : Oracles) (basePath supabaseURL : Str) (m : Manifest) :
    (∀ h, ((extractAndUploadResources o basePath supabaseURL m).1.uploads.map
        UploadEv.href).count h ≤ 1) ∧
    (∀ h, (mapKeys (extractAndUploadResources o basePath supabaseURL m).1.resourceMap).count
        h ≤ 1) ∧
    (∀ (st : WalkSt) (h : Str) (manifestLink : Option Link) (u : Str),
      mapLookup st.resourceMap h = some u →
      processResource o basePath supabaseURL st h manifestLink = (st, none)) := by
  obtain ⟨hkeys, hups, _⟩ := extract_inv o basePath supabaseURL m
  refine ⟨fun h => count_le_one_of_nodup hups h,
          fun h => count_le_one_of_nodup hkeys h, ?_⟩
  intro st h manifestLink u hlook
  unfold processResource
  rw [hlook]

/-- Witness for C1: a run over a manifest that references `ch1.xhtml`
from both the reading order and the resources collection uploads it
once, and a repeated `processResource` call on a mapped href is the
identity. -/
theorem C1_walker_idempotent_witness :
    ((extractAndUploadResources ⟨fun _ => true, fun _ => some (strLit "data"), fun _ => true, id⟩
        (strLit "book") (strLit "https://x.co")
        ⟨[Link.mk (strLit "ch1.xhtml") none [] [] []], [], [],
          [Link.mk (strLit "ch1.xhtml") none [] [] []]⟩).1.uploads.map
      UploadEv.href).count (strLit "ch1.xhtml") ≤ 1 ∧
    processResource ⟨fun _ => true, fun _ => some (strLit "data"), fun _ => true, id⟩
        (strLit "book") (strLit "https://x.co")
        ⟨[(strLit "ch1.xhtml", strLit "u")], [], []⟩ (strLit "ch1.xhtml") none =
      (⟨[(strLit "ch1.xhtml", strLit "u")], [], []⟩, none) :=
  ⟨(C1_walker_idempotent ⟨fun _ => true, fun _ => some (strLit "data"), fun _ => true, id⟩
      (strLit "book") (strLit "https://x.co")
      ⟨[Link.mk (strLit "ch1.xhtml") none [] [] []], [], [],
        [Link.mk (strLit "ch1.xhtml") none [] [] []]⟩).1 (strLit "ch1.xhtml"),
   (C1_walker_idempotent ⟨fun _ => true, fun _ => some (strLit "data"), fun _ => true, id⟩
      (strLit "book") (strLit "https://x.co")
      ⟨[Link.mk (strLit "ch1.xhtml") none [] [] []], [], [],
        [Link.mk (strLit "ch1.xhtml") none [] [] []]⟩).2.2
    ⟨[(strLit "ch1.xhtml", strLit "u")], [], []⟩ (strLit "ch1.xhtml") none (strLit "u")
    (by decide)⟩


/-- C4: `extractAndUploadResources` returns an error exactly when one
of the three fatal phases — reading order, table of contents,
resources — returns one; the generic-links phase (`runSkip`) has no
error outcome at all: on any candidate, including a failing one, it
moves to the state left by `processResource` and continues with the
remaining links. -/
theorem C4_fatal_and_besteffort_failures (o : Oracles) (basePath supabaseURL : Str)
    (m : Manifest) :
    ((extractAndUploadResources o basePath supabaseURL m).2.isSome = true ↔
      ((runFatal o basePath supabaseURL initSt (roCandidates m)).2.isSome = true ∨
       (runFatal o basePath supabaseURL
          (runFatal o basePath supabaseURL initSt (roCandidates m)).1
          (tocCandidates m)).2.isSome = true ∨
       (runFatal o basePath supabaseURL
          (runSkip o basePath supabaseURL
            (runFatal o basePath supabaseURL
              (runFatal o basePath supabaseURL initSt (roCandidates m)).1
              (tocCandidates m)).1
            (linkCandidates m))
          (resCandidates m)).2.isSome = true)) ∧
    (∀ (st : WalkSt) (c : Str × Option Link) (rest : List (Str × Option Link)),
      runSkip o basePath supabaseURL st (c :: rest) =
        runSkip o basePath supabaseURL
          (processResource o basePath supabaseURL st c.1 c.2).1 rest) := by
  constructor
  · unfold extractAndUploadResources
    rcases hr1 : runFatal o basePath supabaseURL initSt (roCandidates m) with ⟨st1, e1⟩
    rcases e1 with _ | err1
    · rcases hr2 : runFatal o basePath supabaseURL st1 (tocCandidates m) with ⟨st2, e2⟩
      rcases e2 with _ | err2
      · simp [hr1, hr2]
      · simp [hr1, hr2]
    · simp [hr1]
  · intro st c rest
    rw [runSkip]

/-- Witness for C4: with an oracle that fails to read `bad.xhtml`, the
error equivalence holds on a manifest whose reading order contains that
item, and the generic-links phase steps over a failing candidate and
continues. -/
theorem C4_fatal_and_besteffort_failures_witness :
    ((extractAndUploadResources
        ⟨fun _ => true, fun h => if h = strLit "bad.xhtml" then none else some (strLit "d"),
          fun _ => true, id⟩ (strLit "book") (strLit "https://x.co")
        ⟨[Link.mk (strLit "bad.xhtml") none [] [] []], [], [], []⟩).2.isSome = true ↔
      ((runFatal ⟨fun _ => true,
          fun h => if h = strLit "bad.xhtml" then none else some (strLit "d"),
          fun _ => true, id⟩ (strLit "book") (strLit "https://x.co") initSt
          (roCandidates ⟨[Link.mk (strLit "bad.xhtml") none [] [] []], [], [], []⟩)).2.isSome =
            true ∨
       (runFatal ⟨fun _ => true,
          fun h => if h = strLit "bad.xhtml" then none else some (strLit "d"),
          fun _ => true, id⟩ (strLit "book") (strLit "https://x.co")
          (runFatal ⟨fun _ => true,
            fun h => if h = strLit "bad.xhtml" then none else some (strLit "d"),
            fun _ => true, id⟩ (strLit "book") (strLit "https://x.co") initSt
            (roCandidates ⟨[Link.mk (strLit "bad.xhtml") none [] [] []], [], [], []⟩)).1
          (tocCandidates ⟨[Link.mk (strLit "bad.xhtml") none [] [] []], [], [], []⟩)).2.isSome =
            true ∨
       (runFatal ⟨fun _ => true,
          fun h => if h = strLit "bad.xhtml" then none else some (strLit "d"),
          fun _ => true, id⟩ (strLit "book") (strLit "https://x.co")
          (runSkip ⟨fun _ => true,
            fun h => if h = strLit "bad.xhtml" then none else some (strLit "d"),
            fun _ => true, id⟩ (strLit "book") (strLit "https://x.co")
            (runFatal ⟨fun _ => true,
              fun h => if h = strLit "bad.xhtml" then none else some (strLit "d"),
              fun _ => true, id⟩ (strLit "book") (strLit "https://x.co")
              (runFatal ⟨fun _ => true,
                fun h => if h = strLit "bad.xhtml" then none else some (strLit "d"),
                fun _ => true, id⟩ (strLit "book") (strLit "https://x.co") initSt
                (roCandidates ⟨[Link.mk (strLit "bad.xhtml") none [] [] []], [], [], []⟩)).1
              (tocCandidates ⟨[Link.mk (strLit "bad.xhtml") none [] [] []], [], [], []⟩)).1
            (linkCandidates ⟨[Link.mk (strLit "bad.xhtml") none [] [] []], [], [], []⟩))
          (resCandidates ⟨[Link.mk (strLit "bad.xhtml") none [] [] []], [], [], []⟩)).2.isSome =
            true)) ∧
    (runSkip ⟨fun _ => true, fun h => if h = strLit "bad.xhtml" then none else some (strLit "d"),
        fun _ => true, id⟩ (strLit "book") (strLit "https://x.co") initSt
        [(strLit "bad.xhtml", none)] =
      runSkip ⟨fun _ => true, fun h => if h = strLit "bad.xhtml" then none else some (strLit "d"),
        fun _ => true, id⟩ (strLit "book") (strLit "https://x.co")
        (processResource ⟨fun _ => true,
            fun h => if h = strLit "bad.xhtml" then none else some (strLit "d"),
            fun _ => true, id⟩ (strLit "book") (strLit "https://x.co") initSt
          (strLit "bad.xhtml") none).1 []) :=
  ⟨(C4_fatal_and_besteffort_failures
      ⟨fun _ => true, fun h => if h = strLit "bad.xhtml" then none else some (strLit "d"),
        fun _ => true, id⟩ (strLit "book") (strLit "https://x.co")
      ⟨[Link.mk (strLit "bad.xhtml") none [] [] []], [], [], []⟩).1,
   (C4_fatal_and_besteffort_failures
      ⟨fun _ => true, fun h => if h = strLit "bad.xhtml" then none else some (strLit "d"),
        fun _ => true, id⟩ (strLit "book") (strLit "https://x.co")
      ⟨[Link.mk (strLit "bad.xhtml") none [] [] []], [], [], []⟩).2 initSt
    (strLit "bad.xhtml", none) []⟩


/-- Total number of position entries announced by a list of infos. -/
def sumNP (infos : List ResourceInfo) : Nat :=
  (infos.map (fun i => i.numPositions)).sum

/-- The positions emitted for a single resource are consecutive,
starting at the running counter. -/
theorem entriesFor_map_position (tc cc pc : Nat) (info : ResourceInfo) :
    (entriesFor tc cc pc info).map (fun e => e.position) =
      List.range' pc info.numPositions := by
  rw [entriesFor, List.map_map]
  have hfun : ((fun e : PositionEntry => e.position) ∘ entryFor tc cc pc info) =
      (fun i => pc + i) := by
    funext i; rfl
  rw [hfun, ← List.range'_eq_map_range]

/-- The positions emitted by pass 2 are consecutive, starting at the
initial counter. -/
theorem pass2_map_position (tc : Nat) :
    ∀ (infos : List ResourceInfo) (pc cc : Nat),
      (pass2 tc infos pc cc).map (fun e => e.position) = List.range' pc (sumNP infos) := by
  intro infos
  induction infos with
  | nil => intro pc cc; simp [pass2, sumNP]
  | cons info rest ih =>
    intro pc cc
    rw [pass2, List.map_append, entriesFor_map_position, ih]
    have hsum : sumNP (info :: rest) = sumNP rest + info.numPositions := by
      simp [sumNP, Nat.add_comm]
    rw [hsum, List.range'_append_1]

/-- Clamped division is monotone in the numerator. -/
theorem tpClamp_mono (tc : Nat) {x y : Nat} (hxy : x ≤ y) :
    tpClamp tc x ≤ tpClamp tc y := by
  unfold tpClamp
  by_cases htc : tc > 0
  · have hc : (0 : ℚ) < (tc : ℚ) := by exact_mod_cast htc
    have hdiv : (x : ℚ) / (tc : ℚ) ≤ (y : ℚ) / (tc : ℚ) :=
      (div_le_div_iff_of_pos_right hc).mpr (by exact_mod_cast hxy)
    simp only [htc, if_true]
    split_ifs with h1 h2
    · exact le_refl 1
    · linarith
    · linarith
    · exact hdiv
  · simp [htc]

/-- Clamped division never exceeds one. -/
theorem tpClamp_le_one (tc x : Nat) : tpClamp tc x ≤ 1 := by
  unfold tpClamp
  by_cases htc : tc > 0
  · simp only [htc, if_true]
    split_ifs with h1
    · exact le_refl 1
    · linarith
  · simp [htc]

/-- The total progression of the `i`-th entry of a resource, spelled
out. -/
theorem entryFor_tp (tc cc pc : Nat) (info : ResourceInfo) (i : Nat) :
    (entryFor tc cc pc info i).totalProgression =
      tpClamp tc (cc + i * info.charCount / info.numPositions) := rfl

/-- Bounds on the total progression of the entries of one resource:
between the clamp at the cumulative count and the clamp at the
cumulative count plus the resource's character count. -/
theorem entriesFor_tp_bounds (tc cc pc : Nat) (info : ResourceInfo) :
    ∀ e ∈ entriesFor tc cc pc info,
      tpClamp tc cc ≤ e.totalProgression ∧
      e.totalProgression ≤ tpClamp tc (cc + info.charCount) := by
  intro e he
  rw [entriesFor, List.mem_map] at he
  obtain ⟨i, hi, rfl⟩ := he
  rw [List.mem_range] at hi
  rw [entryFor_tp]
  have hn : 0 < info.numPositions := Nat.lt_of_le_of_lt (Nat.zero_le i) hi
  constructor
  · exact tpClamp_mono tc (Nat.le_add_right cc _)
  · apply tpClamp_mono
    have hdiv : i * info.charCount / info.numPositions ≤ info.charCount := by
      have h1 : i * info.charCount ≤ info.numPositions * info.charCount :=
        Nat.mul_le_mul_right _ (Nat.le_of_lt hi)
      calc i * info.charCount / info.numPositions
          ≤ info.numPositions * info.charCount / info.numPositions :=
            Nat.div_le_div_right h1
        _ = info.charCount := Nat.mul_div_cancel_left _ hn
    omega

/-- Every entry emitted by pass 2 has total progression at least the
clamp at the starting cumulative count. -/
theorem pass2_tp_lower (tc : Nat) :
    ∀ (infos : List ResourceInfo) (pc cc : Nat),
      ∀ e ∈ pass2 tc infos pc cc, tpClamp tc cc ≤ e.totalProgression := by
  intro infos
  induction infos with
  | nil => intro pc cc e he; cases he
  | cons info rest ih =>
    intro pc cc e he
    rw [pass2, List.mem_append] at he
    rcases he with he | he
    · exact (entriesFor_tp_bounds tc cc pc info e he).1
    · exact le_trans (tpClamp_mono tc (Nat.le_add_right cc info.charCount)) (ih _ _ e he)

/-- The total progressions emitted by pass 2 are non-decreasing along
the list. -/
theorem pass2_tp_pairwise (tc : Nat) :
    ∀ (infos : List ResourceInfo) (pc cc : Nat),
      (pass2 tc infos pc cc).Pairwise
        (fun a b => a.totalProgression ≤ b.totalProgression) := by
  intro infos
  induction infos with
  | nil => intro pc cc; exact List.Pairwise.nil
  | cons info rest ih =>
    intro pc cc
    rw [pass2]
    rw [List.pairwise_append]
    refine ⟨?_, ih _ _, ?_⟩
    · rw [entriesFor, List.pairwise_map]
      have hlt := List.pairwise_lt_range info.numPositions
      refine hlt.imp ?_
      intro i j hij
      rw [entryFor_tp, entryFor_tp]
      apply tpClamp_mono
      have hd : i * info.charCount / info.numPositions ≤
          j * info.charCount / info.numPositions :=
        Nat.div_le_div_right (Nat.mul_le_mul_right _ (Nat.le_of_lt hij))
      omega
    · intro a ha b hb
      exact le_trans ((entriesFor_tp_bounds tc cc pc info a ha).2)
        (pass2_tp_lower tc rest _ (cc + info.charCount) b hb)

/-- Every entry emitted by pass 2 has total progression at most one. -/
theorem pass2_tp_le_one (tc : Nat) :
    ∀ (infos : List ResourceInfo) (pc cc : Nat),
      ∀ e ∈ pass2 tc infos pc cc, e.totalProgression ≤ 1 := by
  intro infos
  induction infos with
  | nil => intro pc cc e he; cases he
  | cons info rest ih =>
    intro pc cc e he
    rw [pass2, List.mem_append] at he
    rcases he with he | he
    · rw [entriesFor, List.mem_map] at he
      obtain ⟨i, _, rfl⟩ := he
      rw [entryFor_tp]
      exact tpClamp_le_one _ _
    · exact ih _ _ e he

/-- The position of every entry of the generated document, by index. -/
theorem positions_get_position (o : Oracles) (readingOrder : List Link)
    (k : Nat) (hk : k < (generatePositionsJSON o readingOrder).positions.length) :
    ((generatePositionsJSON o readingOrder).positions.get ⟨k, hk⟩).position = 1 + k := by
  have hps : (generatePositionsJSON o readingOrder).positions =
      pass2 (totalCharsOf (pass1 o readingOrder)) (pass1 o readingOrder) 1 0 := rfl
  have heq : (generatePositionsJSON o readingOrder).positions.map (fun e => e.position) =
      List.range' 1 (sumNP (pass1 o readingOrder)) := by
    rw [hps]
    exact pass2_map_position _ _ 1 0
  have hk2 : k < ((generatePositionsJSON o readingOrder).positions.map
      (fun e => e.position)).length := by
    rw [List.length_map]
    exact hk
  have hk3 : k < (List.range' 1 (sumNP (pass1 o readingOrder))).length := by
    rw [← heq]
    exact hk2
  have h1 : ((generatePositionsJSON o readingOrder).positions.map
      (fun e => e.position)).get ⟨k, hk2⟩ =
      (List.range' 1 (sumNP (pass1 o readingOrder))).get ⟨k, hk3⟩ :=
    List.get_of_eq heq ⟨k, hk2⟩
  have h2 : ((generatePositionsJSON o readingOrder).positions.map
      (fun e => e.position)).get ⟨k, hk2⟩ =
      ((generatePositionsJSON o readingOrder).positions.get ⟨k, hk⟩).position := by
    rw [List.get_eq_getElem, List.get_eq_getElem, List.getElem_map]
  rw [← h2, h1, List.get_eq_getElem]
  simp [List.getElem_range', Nat.mul_comm]

/-- C2: in the position list produced by `generatePositionsJSON`,
adjacent entries satisfy `position[i+1] = position[i] + 1` (positions
are contiguous, starting at 1), `totalProgression` is non-decreasing,
every `totalProgression` is at most 1, and the document's `total` field
equals the number of entries. -/
theorem C2_position_monotonicity (o : Oracles) (readingOrder : List Link) (i : Nat)
    (h : i + 1 < (generatePositionsJSON o readingOrder).positions.length) :
    (((generatePositionsJSON o readingOrder).positions.get ⟨i + 1, h⟩).position =
      ((generatePositionsJSON o readingOrder).positions.get
        ⟨i, Nat.lt_of_succ_lt h⟩).position + 1) ∧
    (((generatePositionsJSON o readingOrder).positions.get
        ⟨i, Nat.lt_of_succ_lt h⟩).totalProgression ≤
      ((generatePositionsJSON o readingOrder).positions.get ⟨i + 1, h⟩).totalProgression) ∧
    (∀ e ∈ (generatePositionsJSON o readingOrder).positions, e.totalProgression ≤ 1) ∧
    (∀ h0 : 0 < (generatePositionsJSON o readingOrder).positions.length,
      ((generatePositionsJSON o readingOrder).positions.get ⟨0, h0⟩).position = 1) ∧
    (generatePositionsJSON o readingOrder).total =
      (generatePositionsJSON o readingOrder).positions.length := by
  refine ⟨?_, ?_, ?_, ?_, rfl⟩
  · rw [positions_get_position o readingOrder (i + 1) h,
      positions_get_position o readingOrder i (Nat.lt_of_succ_lt h)]
    omega
  · have hpair : ((generatePositionsJSON o readingOrder).positions).Pairwise
        (fun a b => a.totalProgression ≤ b.totalProgression) :=
      pass2_tp_pairwise _ _ 1 0
    exact List.pairwise_iff_get.mp hpair ⟨i, Nat.lt_of_succ_lt h⟩ ⟨i + 1, h⟩
      (Nat.lt_succ_self i)
  · intro e he
    exact pass2_tp_le_one _ _ 1 0 e he
  · intro h0
    rw [positions_get_position o readingOrder 0 h0]


set_option maxRecDepth 8192 in
/-- Witness for C2 on the spec's scenario: reading order with contents
of 500 and 1500 characters produces three entries; at the boundary
`i = 1` the position steps by one and the total progression does not
decrease. -/
theorem C2_position_monotonicity_witness :
    (((generatePositionsJSON
        ⟨fun _ => true,
          fun h => if h = strLit "ch1.xhtml" then some (List.replicate 500 'a')
            else some (List.replicate 1500 'b'),
          fun _ => true, id⟩
        [Link.mk (strLit "ch1.xhtml") none [] [] [],
          Link.mk (strLit "ch2.xhtml") none [] [] []]).positions.get
        ⟨2, by decide⟩).position =
      ((generatePositionsJSON
        ⟨fun _ => true,
          fun h => if h = strLit "ch1.xhtml" then some (List.replicate 500 'a')
            else some (List.replicate 1500 'b'),
          fun _ => true, id⟩
        [Link.mk (strLit "ch1.xhtml") none [] [] [],
          Link.mk (strLit "ch2.xhtml") none [] [] []]).positions.get
        ⟨1, by decide⟩).position + 1) ∧
    (((generatePositionsJSON
        ⟨fun _ => true,
          fun h => if h = strLit "ch1.xhtml" then some (List.replicate 500 'a')
            else some (List.replicate 1500 'b'),
          fun _ => true, id⟩
        [Link.mk (strLit "ch1.xhtml") none [] [] [],
          Link.mk (strLit "ch2.xhtml") none [] [] []]).positions.get
        ⟨1, by decide⟩).totalProgression ≤
      ((generatePositionsJSON
        ⟨fun _ => true,
          fun h => if h = strLit "ch1.xhtml" then some (List.replicate 500 'a')
            else some (List.replicate 1500 'b'),
          fun _ => true, id⟩
        [Link.mk (strLit "ch1.xhtml") none [] [] [],
          Link.mk (strLit "ch2.xhtml") none [] [] []]).positions.get
        ⟨2, by decide⟩).totalProgression) := by
  have happ := C2_position_monotonicity
    ⟨fun _ => true,
      fun h => if h = strLit "ch1.xhtml" then some (List.replicate 500 'a')
        else some (List.replicate 1500 'b'),
      fun _ => true, id⟩
    [Link.mk (strLit "ch1.xhtml") none [] [] [],
      Link.mk (strLit "ch2.xhtml") none [] [] []] 1 (by decide)
  exact ⟨happ.1, happ.2.1⟩


/-- The full hrefs that the TOC landmark scan adds to the seen set,
given the hrefs already seen. -/
def addedTocHrefs : List Link → List Str → List Str
  | [], _ => []
  | l :: rest, seen =>
    if l.href ∈ seen then addedTocHrefs rest seen
    else
      match tocLandmarkTitle (goToLower l.title) with
      | some _ => l.href :: addedTocHrefs rest (seen ++ [l.href])
      | none => addedTocHrefs rest seen

/-- The generic-link landmark phase appends one entry and records one
full href per qualifying link, with no deduplication. -/
theorem landmarksFromLinks_spec :
    ∀ (links : List Link) (items0 : List LmItem) (seen0 : List Str),
      links.foldl (fun acc l =>
        if isLandmarkLink l then
          (acc.1 ++ [⟨goTrimStart l.href (strLit "/"),
                      if l.title ≠ [] then some l.title else none⟩],
           acc.2 ++ [l.href])
        else acc) (items0, seen0) =
      (items0 ++ (links.filter isLandmarkLink).map (fun l =>
          (⟨goTrimStart l.href (strLit "/"),
            if l.title ≠ [] then some l.title else none⟩ : LmItem)),
       seen0 ++ (links.filter isLandmarkLink).map Link.href) := by
  intro links
  induction links with
  | nil => intro items0 seen0; simp
  | cons l rest ih =>
    intro items0 seen0
    rw [List.foldl_cons]
    by_cases hl : isLandmarkLink l = true
    · rw [List.filter_cons_of_pos hl]
      simp only [hl, if_true]
      rw [ih]
      simp [List.append_assoc]
    · have hstep : isLandmarkLink l = false := by
        rcases hb : isLandmarkLink l
        · rfl
        · exact absurd hb hl
      rw [List.filter_cons_of_neg (by simp [hstep])]
      simp only [hstep, Bool.false_eq_true, if_false]
      exact ih items0 seen0


/-- The TOC landmark scan: its recorded hrefs are exactly the starting
set extended by `addedTocHrefs`; those added hrefs are pairwise
distinct full hrefs, none of which was previously recorded; and one
landmark entry is appended per added href. -/
theorem landmarksAddTOC_spec :
    ∀ (toc : List Link) (items : List LmItem) (seen : List Str),
      (landmarksAddTOC toc (items, seen)).2 = seen ++ addedTocHrefs toc seen ∧
      (addedTocHrefs toc seen).Nodup ∧
      (∀ h ∈ addedTocHrefs toc seen, h ∉ seen) ∧
      (landmarksAddTOC toc (items, seen)).1.length =
        items.length + (addedTocHrefs toc seen).length := by
  intro toc
  induction toc with
  | nil =>
    intro items seen
    exact ⟨by simp [landmarksAddTOC, addedTocHrefs], by simp [addedTocHrefs],
      by simp [addedTocHrefs], by simp [landmarksAddTOC, addedTocHrefs]⟩
  | cons l rest ih =>
    intro items seen
    rw [landmarksAddTOC, List.foldl_cons, addedTocHrefs]
    by_cases hseen : l.href ∈ seen
    · simp only [hseen, if_true]
      have hstep : tocLandmarkStep (items, seen) l = (items, seen) := by
        rw [tocLandmarkStep]
        simp [hseen]
      rw [hstep]
      exact ih items seen
    · simp only [hseen, if_false]
      rcases htitle : tocLandmarkTitle (goToLower l.title) with _ | t
      · have hstep : tocLandmarkStep (items, seen) l = (items, seen) := by
          rw [tocLandmarkStep]
          simp [hseen, htitle]
        rw [hstep]
        exact ih items seen
      · have hstep : tocLandmarkStep (items, seen) l =
            (items ++ [⟨goTrimStart l.href (strLit "/"),
              if t ≠ [] then some t else if l.title ≠ [] then some l.title else none⟩],
             seen ++ [l.href]) := by
          rw [tocLandmarkStep]
          simp [hseen, htitle]
        rw [hstep]
        obtain ⟨ih1, ih2, ih3, ih4⟩ := ih
          (items ++ [⟨goTrimStart l.href (strLit "/"),
            if t ≠ [] then some t else if l.title ≠ [] then some l.title else none⟩])
          (seen ++ [l.href])
        refine ⟨?_, ?_, ?_, ?_⟩
        · rw [show List.foldl tocLandmarkStep
              (items ++ [(⟨goTrimStart l.href (strLit "/"),
                if t ≠ [] then some t else if l.title ≠ [] then some l.title else none⟩ :
                  LmItem)], seen ++ [l.href]) rest =
              landmarksAddTOC rest
                (items ++ [(⟨goTrimStart l.href (strLit "/"),
                  if t ≠ [] then some t else if l.title ≠ [] then some l.title else none⟩ :
                    LmItem)], seen ++ [l.href]) from rfl]
          rw [ih1, List.append_assoc]
          rfl
        · refine List.Pairwise.cons ?_ ih2
          intro h hmem heq
          have hns := ih3 h hmem
          exact hns (by rw [← heq]; simp)
        · intro h hmem
          rcases List.mem_cons.mp hmem with rfl | hmem2
          · exact hseen
          · intro hc
            exact (ih3 h hmem2) (List.mem_append_left _ hc)
        · rw [show List.foldl tocLandmarkStep
              (items ++ [(⟨goTrimStart l.href (strLit "/"),
                if t ≠ [] then some t else if l.title ≠ [] then some l.title else none⟩ :
                  LmItem)], seen ++ [l.href]) rest =
              landmarksAddTOC rest
                (items ++ [(⟨goTrimStart l.href (strLit "/"),
                  if t ≠ [] then some t else if l.title ≠ [] then some l.title else none⟩ :
                    LmItem)], seen ++ [l.href]) from rfl]
          rw [ih4]
          simp only [List.length_append, List.length_cons, List.length_nil]
          omega


/-- C5 as amended: landmark deduplication is by FULL href (fragment
included) and applies only to TOC-phase candidates: a TOC entry whose
full href was already recorded (by the generic phase or an earlier TOC
entry) adds no landmark, the added TOC landmarks carry pairwise
distinct full hrefs that were not previously recorded, and exactly one
entry is appended per added href — while the generic phase appends one
landmark per qualifying link with no deduplication at all, so two
landmarks may share a base href when their fragments differ. -/
theorem C5_landmark_dedup_amended (toc links : List Link) (items : List LmItem)
    (seen : List Str) :
    ((landmarksAddTOC toc (items, seen)).2 = seen ++ addedTocHrefs toc seen ∧
      (addedTocHrefs toc seen).Nodup ∧
      (∀ h ∈ addedTocHrefs toc seen, h ∉ seen) ∧
      (landmarksAddTOC toc (items, seen)).1.length =
        items.length + (addedTocHrefs toc seen).length) ∧
    (landmarksFromLinks links).1.length = (links.filter isLandmarkLink).length ∧
    (landmarksFromLinks links).2 = (links.filter isLandmarkLink).map Link.href := by
  refine ⟨landmarksAddTOC_spec toc items seen, ?_, ?_⟩
  · rw [landmarksFromLinks, landmarksFromLinks_spec links [] []]
    simp
  · rw [landmarksFromLinks, landmarksFromLinks_spec links [] []]
    simp

/-- Counterexample to C5 as stated: a generic link with rel `contents`
and href `toc.xhtml#a` and a TOC entry titled `Contents` with href
`toc.xhtml#b` both become landmarks — two entries with the same base
href `toc.xhtml`, so deduplication is NOT by base href. -/
theorem C5_landmark_dedup_counterexample :
    ((landmarksOf
        ⟨[], [Link.mk (strLit "toc.xhtml#b") none (strLit "Contents") [] []],
          [Link.mk (strLit "toc.xhtml#a") none [] [strLit "contents"] []], []⟩).map
      (fun e => stripFragment e.href)).count (strLit "toc.xhtml") = 2 := by
  decide

/-- Witness for C5 (amended) at a concrete scan: a TOC entry whose full
href was recorded by the generic phase is skipped, so the scan appends
no entry, and a duplicated generic landmark link contributes one entry
per occurrence. -/
theorem C5_landmark_dedup_amended_witness :
    ((landmarksAddTOC [Link.mk (strLit "toc.xhtml") none (strLit "Contents") [] []]
        ([⟨strLit "toc.xhtml", none⟩], [strLit "toc.xhtml"])).2 =
      [strLit "toc.xhtml"] ++
        addedTocHrefs [Link.mk (strLit "toc.xhtml") none (strLit "Contents") [] []]
          [strLit "toc.xhtml"] ∧
      (addedTocHrefs [Link.mk (strLit "toc.xhtml") none (strLit "Contents") [] []]
        [strLit "toc.xhtml"]).Nodup ∧
      (∀ h ∈ addedTocHrefs [Link.mk (strLit "toc.xhtml") none (strLit "Contents") [] []]
        [strLit "toc.xhtml"], h ∉ [strLit "toc.xhtml"]) ∧
      (landmarksAddTOC [Link.mk (strLit "toc.xhtml") none (strLit "Contents") [] []]
        ([⟨strLit "toc.xhtml", none⟩], [strLit "toc.xhtml"])).1.length =
        ([(⟨strLit "toc.xhtml", none⟩ : LmItem)]).length +
          (addedTocHrefs [Link.mk (strLit "toc.xhtml") none (strLit "Contents") [] []]
            [strLit "toc.xhtml"]).length) ∧
    (landmarksFromLinks [Link.mk (strLit "a.xhtml") none [] [strLit "start"] [],
        Link.mk (strLit "a.xhtml") none [] [strLit "start"] []]).1.length =
      ([Link.mk (strLit "a.xhtml") none [] [strLit "start"] [],
        Link.mk (strLit "a.xhtml") none [] [strLit "start"] []].filter
          isLandmarkLink).length ∧
    (landmarksFromLinks [Link.mk (strLit "a.xhtml") none [] [strLit "start"] [],
        Link.mk (strLit "a.xhtml") none [] [strLit "start"] []]).2 =
      ([Link.mk (strLit "a.xhtml") none [] [strLit "start"] [],
        Link.mk (strLit "a.xhtml") none [] [strLit "start"] []].filter
          isLandmarkLink).map Link.href :=
  C5_landmark_dedup_amended [Link.mk (strLit "toc.xhtml") none (strLit "Contents") [] []]
    [Link.mk (strLit "a.xhtml") none [] [strLit "start"] [],
      Link.mk (strLit "a.xhtml") none [] [strLit "start"] []]
    [⟨strLit "toc.xhtml", none⟩] [strLit "toc.xhtml"]


/-- A skip-or-append fold is the filter of the kept elements mapped
onto the end of the accumulator. -/
theorem foldl_skip_append {A B : Type} (p : A → Bool) (f : A → B) :
    ∀ (ls : List A) (init : List B),
      ls.foldl (fun acc l => if p l then acc else acc ++ [f l]) init =
        init ++ (ls.filter (fun l => !p l)).map f := by
  intro ls
  induction ls with
  | nil => intro init; simp
  | cons l rest ih =>
    intro init
    rw [List.foldl_cons]
    rcases hl : p l
    · rw [if_neg (by simp [hl])]
      rw [ih]
      rw [List.filter_cons_of_pos (by simp [hl])]
      simp [List.append_assoc]
    · rw [if_pos (by simp [hl])]
      rw [ih]
      rw [List.filter_cons_of_neg (by simp [hl])]

/-- C6 as amended: the `links` array always begins, in order, with the
self link (absolute manifest URL, type `application/webpub+json`), the
content-index link (`readium/content.json`) and the position-list link
(`readium/positions.json`), followed by exactly those generic links
whose `rel` values do not intersect the landmark rel set
`contents/start/copyright` (internal hrefs relativized by stripping one
leading slash; `http`, `https` and `~` hrefs passed through unchanged).
A generic link that qualifies as a landmark only by its title is NOT
filtered out there, so it appears both in the landmarks list and among
the trailing links. -/
theorem C6_links_array_amended (m : Manifest) (basePath supabaseURL : Str) :
    buildLinks m basePath supabaseURL =
      ({ href := selfManifestURL basePath supabaseURL,
          mtype := some (strLit "application/webpub+json"),
          rel := some (.one (strLit "self")) } : LinkItem) ::
      ({ href := strLit "readium/content.json",
          mtype := some (strLit "application/vnd.readium.content+json"),
          rel := none } : LinkItem) ::
      ({ href := strLit "readium/positions.json",
          mtype := some (strLit "application/vnd.readium.position-list+json"),
          rel := none } : LinkItem) ::
      (m.links.filter (fun l => !relsIntersectLandmarks l.rels)).map renderGenericLink ∧
    (∀ l : Link,
      (goHasPrefix l.href (strLit "http://") || goHasPrefix l.href (strLit "https://") ||
        goHasPrefix l.href (strLit "~")) = true →
      (renderGenericLink l).href = l.href) ∧
    (∀ l : Link,
      (goHasPrefix l.href (strLit "http://") || goHasPrefix l.href (strLit "https://") ||
        goHasPrefix l.href (strLit "~")) = false →
      (renderGenericLink l).href = goTrimStart l.href (strLit "/")) := by
  refine ⟨?_, ?_, ?_⟩
  · rw [buildLinks]
    rw [foldl_skip_append (fun l => relsIntersectLandmarks l.rels) renderGenericLink]
    rfl
  · intro l hl
    rw [renderGenericLink]
    rcases h1 : goHasPrefix l.href (strLit "http://") <;>
      rcases h2 : goHasPrefix l.href (strLit "https://") <;>
      rcases h3 : goHasPrefix l.href (strLit "~") <;>
      simp_all
  · intro l hl
    rw [renderGenericLink]
    rcases h1 : goHasPrefix l.href (strLit "http://") <;>
      rcases h2 : goHasPrefix l.href (strLit "https://") <;>
      rcases h3 : goHasPrefix l.href (strLit "~") <;>
      simp_all

/-- Counterexample to C6 as stated: a generic link titled
`Begin Reading` with no rels is a landmark (by title) yet its rels do
not intersect the landmark rel set, so the very same href appears in
the landmarks list AND among the trailing generic links. -/
theorem C6_links_array_counterexample :
    ((landmarksOf ⟨[], [],
        [Link.mk (strLit "begin.xhtml") none (strLit "Begin Reading") [] []], []⟩).map
      (fun e => e.href)) = [strLit "begin.xhtml"] ∧
    (((buildLinks ⟨[], [],
        [Link.mk (strLit "begin.xhtml") none (strLit "Begin Reading") [] []], []⟩
        (strLit "book") (strLit "https://x.co")).drop 3).map (fun e => e.href)) =
      [strLit "begin.xhtml"] := by
  constructor
  · decide
  · decide

/-- Witness for C6 (amended): the links array of a manifest with one
external generic link has the three required heads followed by the
unmodified external link. -/
theorem C6_links_array_amended_witness :
    buildLinks ⟨[], [], [Link.mk (strLit "https://ex.com/lic") none [] [] []], []⟩
        (strLit "book") (strLit "https://x.co") =
      ({ href := selfManifestURL (strLit "book") (strLit "https://x.co"),
          mtype := some (strLit "application/webpub+json"),
          rel := some (.one (strLit "self")) } : LinkItem) ::
      ({ href := strLit "readium/content.json",
          mtype := some (strLit "application/vnd.readium.content+json"),
          rel := none } : LinkItem) ::
      ({ href := strLit "readium/positions.json",
          mtype := some (strLit "application/vnd.readium.position-list+json"),
          rel := none } : LinkItem) ::
      (([Link.mk (strLit "https://ex.com/lic") none [] [] []].filter
          (fun l => !relsIntersectLandmarks l.rels)).map renderGenericLink) ∧
    (renderGenericLink (Link.mk (strLit "https://ex.com/lic") none [] [] [])).href =
      (Link.mk (strLit "https://ex.com/lic") none [] [] []).href :=
  ⟨(C6_links_array_amended ⟨[], [], [Link.mk (strLit "https://ex.com/lic") none [] [] []], []⟩
      (strLit "book") (strLit "https://x.co")).1,
   (C6_links_array_amended ⟨[], [], [Link.mk (strLit "https://ex.com/lic") none [] [] []], []⟩
      (strLit "book") (strLit "https://x.co")).2.1
    (Link.mk (strLit "https://ex.com/lic") none [] [] []) (by decide)⟩

end Readium
